import Mathlib

/-!
Shallow embedding of the Load-Balancer core (Go) for specification checking.

The embedded source is the main implementation (package main): the backend
struct `simpleServer`, the `LoadBalancer` with its three selection
algorithms (`getNextRoundRobinServer`, `getLeastConnServer`,
`getRandomServer`), the algorithm dispatch `getNextAvailableSever` (name
kept as in the source, including the typo), the dispatch path `serveProxy`
with its `loggingResponseWriter`, the health check `checkHealth`, and the
constructors `initialiseServer` (package main) and `NewLoadBalancer`
(package internal/proxy).

Modelling conventions:
  - Machine integers are `Int` with explicit wrap-around (`wrap32`,
    `wrap64`) at the points where the Go code uses `int32`/`int64`
    atomics.
  - Go code that can panic (out-of-range slice index, `rand.Intn` with a
    non-positive bound) is embedded with `Except Fault`.
  - The unbounded `for` loop of `getRandomServer` is embedded with an
    explicit finite list of random samples; the result `none` means the
    loop has not returned after consuming all of those samples, so a
    result of `none` for every sample list is divergence.
  - External collaborators (URL parsing, the reverse proxy, the HTTP
    client of the health probe, logging and metrics sinks) are parameters:
    their outcomes are inputs to the embedded functions, and the events
    sent to them are returned as data.
-/

/-- Wrap-around of a mathematical integer into the `int32` range, the
effect of Go `int32` arithmetic such as `atomic.AddInt32`. -/
def wrap32 (x : Int) : Int :=
  (x + 2 ^ 31) % 2 ^ 32 - 2 ^ 31

/-- Wrap-around of a mathematical integer into the `int64` range, the
effect of Go `int64` arithmetic such as `atomic.AddInt64`. -/
def wrap64 (x : Int) : Int :=
  (x + 2 ^ 63) % 2 ^ 64 - 2 ^ 63

/-- Run-time faults of the Go code: a slice access out of range, or
`rand.Intn` called with a non-positive bound (both panic in Go). -/
inductive Fault where
  | indexOutOfRange : Fault
  | intnRange : Fault
  deriving DecidableEq, Repr

/-- The backend struct `simpleServer` (part_000 lines 75-82).  The
`proxy` field is an opaque external collaborator and carries no state
relevant to the claims, so it is not modelled; the mutex only guards the
fields already present here. -/
structure SimpleServer where
  addr : String
  activeConns : Int
  alive : Bool
  requests : Int
  deriving DecidableEq, Repr

/-- Go slice read `servers[i]` with an `int` index: panics when the index
is negative or not below the length. -/
def goIndex (servers : List SimpleServer) (i : Int) : Except Fault SimpleServer :=
  if 0 ≤ i then
    match servers[i.toNat]? with
    | some s => Except.ok s
    | none => Except.error Fault.indexOutOfRange
  else
    Except.error Fault.indexOutOfRange

/-- Go `rand.Intn n`: panics when `n = 0` (the Go condition `n <= 0` for a
`Nat` bound), otherwise an arbitrary value below `n`; the `sample`
argument is the random source, reduced modulo `n`. -/
def randIntn (n : Nat) (sample : Nat) : Except Fault Nat :=
  if n = 0 then Except.error Fault.intnRange else Except.ok (sample % n)

/-- The scan loop of `getNextRoundRobinServer` (part_000 lines 241-246):
`for i := range total { index := (start + i) % total; if alive return }`.
Go `%` on `int` is truncated remainder, `Int.tmod`. -/
def rrScan (servers : List SimpleServer) (start : Int) :
    Nat → Nat → Except Fault (Option SimpleServer)
  | _, 0 => Except.ok none
  | i, r + 1 =>
    match goIndex servers (Int.tmod (start + (i : Int)) (servers.length : Int)) with
    | Except.error f => Except.error f
    | Except.ok s =>
      if s.alive then Except.ok (some s) else rrScan servers start (i + 1) r

/-- The round-robin selector `getNextRoundRobinServer` (part_000 lines
233-248).  State-passing embedding: the shared `int32` counter
`rrCounter` comes in as `c` and the advanced counter is returned.  When
the pool is empty the function returns `nil` before touching the counter;
otherwise `start := int(atomic.AddInt32(&rrCounter, 1) % int32(total))`
and the circular scan runs for at most `total` steps. -/
def getNextRoundRobinServer (servers : List SimpleServer) (c : Int) :
    Int × Except Fault (Option SimpleServer) :=
  let total := servers.length
  if total = 0 then
    (c, Except.ok none)
  else
    let c2 := wrap32 (c + 1)
    let start := Int.tmod c2 (total : Int)
    (c2, rrScan servers start 0 total)

/-- Sentinel initial minimum of the least-connections scan:
`int32(^uint32(0) >> 1)` (part_000 line 282). -/
def int32Max : Int := 2147483647

/-- The loop of `getLeastConnServer` (part_000 lines 285-293): walk the
pool carrying the currently selected server and the running minimum,
updating on `srv.isAlive() && c < min`. -/
def lcScan : List SimpleServer → Option SimpleServer → Int → Option SimpleServer
  | [], sel, _ => sel
  | srv :: rest, sel, m =>
    if srv.alive ∧ srv.activeConns < m then
      lcScan rest (some srv) srv.activeConns
    else
      lcScan rest sel m

/-- The least-connections selector `getLeastConnServer` (part_000 lines
250-302): scan with `selected = nil` and `min = int32Max`; the trailing
print loop has no effect on the result. -/
def getLeastConnServer (servers : List SimpleServer) : Option SimpleServer :=
  lcScan servers none int32Max

/-- The random selector `getRandomServer` (part_000 lines 304-311):
`for { server := lb.servers[rand.Intn(len(lb.servers))]; if alive return }`.
The loop is embedded against a finite list of random samples; `none`
means the loop is still running after all samples are consumed (the Go
loop has no other exit), `some (Except.error f)` means a panic, and
`some (Except.ok s)` means the loop returned `s`. -/
def getRandomServer (servers : List SimpleServer) : List Nat → Option (Except Fault SimpleServer)
  | [] => none
  | k :: rest =>
    match randIntn servers.length k with
    | Except.error f => some (Except.error f)
    | Except.ok i =>
      match servers[i]? with
      | none => some (Except.error Fault.indexOutOfRange)
      | some s =>
        if s.alive then some (Except.ok s) else getRandomServer servers rest

/-- The algorithm dispatch `getNextAvailableSever` (part_000 lines
313-323, name kept as in the source): `"roundrobin"` and `"leastconn"`
are recognised and every other string falls through to the random
selector.  The result is the advanced round-robin counter paired with the
outcome in the fuelled random shape (`none` = the random loop has not
returned; the two terminating selectors always produce `some`). -/
def getNextAvailableSever (servers : List SimpleServer) (c : Int) (samples : List Nat)
    (algo : String) : Int × Option (Except Fault (Option SimpleServer)) :=
  if algo = "roundrobin" then
    let r := getNextRoundRobinServer servers c
    (r.1, some r.2)
  else if algo = "leastconn" then
    (c, some (Except.ok (getLeastConnServer servers)))
  else
    (c, (getRandomServer servers samples).map (Except.map some))

/-- Liveness test at one pool position: the backend at index `k` when it
exists and is alive, `none` otherwise. -/
def aliveCheck (servers : List SimpleServer) (k : Nat) : Option SimpleServer :=
  match servers[k]? with
  | some s => if s.alive then some s else none
  | none => none

/-- Specification-level circular scan used to state what the round-robin
scan loop computes: the first alive backend at positions
`(start + i) % poolSize` for `i = 0, 1, ...` within one full revolution. -/
def circularScan (servers : List SimpleServer) (start : Nat) : Option SimpleServer :=
  (List.range servers.length).findSome? fun i =>
    aliveCheck servers ((start + i) % servers.length)

example : getNextRoundRobinServer [] 5 = (5, Except.ok none) := rfl

/-- Outcome of one proxied forward (`s.proxy.ServeHTTP`): normal return,
an error surfaced by the reverse proxy, or a panic recovered further up
the handler stack.  Deferred functions run on all three. -/
inductive ForwardOutcome where
  | success : ForwardOutcome
  | proxyError : ForwardOutcome
  | panicEquivalent : ForwardOutcome
  deriving DecidableEq, Repr

/-- Counter operations of `simpleServer.increment` / `simpleServer.decrement`
(part_000 lines 165-175). -/
inductive ConnEvent where
  | increment : ConnEvent
  | decrement : ConnEvent
  deriving DecidableEq, Repr

/-- Counter events produced by one execution of `simpleServer.Serve`
(part_000 lines 325-333): `s.increment()` on entry, then the deferred
`s.decrement()` which Go runs on every exit of `proxy.ServeHTTP` —
normal return, proxy error, and panic alike. -/
def serveEvents : ForwardOutcome → List ConnEvent
  | ForwardOutcome.success => [ConnEvent.increment, ConnEvent.decrement]
  | ForwardOutcome.proxyError => [ConnEvent.increment, ConnEvent.decrement]
  | ForwardOutcome.panicEquivalent => [ConnEvent.increment, ConnEvent.decrement]

/-- The `loggingResponseWriter` (part_000 lines 98-106): `statusCode` is
initialised to `http.StatusOK` (200) at part_000 line 370 and overwritten
by every `WriteHeader` call; `writes` is the list of status codes the
forwarded handler wrote. -/
def lrwFinalStatus (writes : List Nat) : Nat :=
  writes.foldl (fun _ code => code) 200

/-- Externally visible effects of one `LoadBalancer.serveProxy` call
(part_000 lines 359-381). -/
structure ServeReport where
  clientWrites : List Nat
  counterEvents : List ConnEvent
  forwarded : Bool
  loggedStatus : Option Nat
  deriving DecidableEq, Repr

/-- The dispatch path `serveProxy` (part_000 lines 359-381), parametrised
by the selector outcome `sel`, the status codes `writes` the chosen
backend writes while being served, and the forward outcome.  When `sel`
is `none` the code writes `http.Error(rw, "Service unavailable", 503)`
and returns before touching any backend counter or reporting to
`logRequest` / Prometheus; otherwise it serves through the logging
response writer and reports `lrw.statusCode` to both collaborators. -/
def serveProxy (sel : Option SimpleServer) (writes : List Nat) (o : ForwardOutcome) :
    ServeReport :=
  match sel with
  | none =>
    { clientWrites := [503], counterEvents := [], forwarded := false, loggedStatus := none }
  | some _ =>
    { clientWrites := writes
      counterEvents := serveEvents o
      forwarded := true
      loggedStatus := some (lrwFinalStatus writes) }

/-- Outcome of one health probe (`client.Get(s.addr + "/health")` with a
2-second client timeout, part_000 lines 190-194): `err = true` when the
request failed to complete (connection error or timeout), otherwise the
response status code. -/
structure ProbeResult where
  err : Bool
  statusCode : Nat
  deriving DecidableEq, Repr

/-- Health event reported to `logHealthCheck` and the `backendHealth`
gauge. -/
structure HealthEvent where
  backend : String
  alive : Bool
  deriving DecidableEq, Repr

/-- The health check `simpleServer.checkHealth` (part_000 lines 190-211):
`if err != nil || resp.StatusCode != http.StatusOK { alive = false } else
{ alive = true }`, with the outcome reported to the logging and metrics
collaborators. -/
def checkHealth (s : SimpleServer) (probe : ProbeResult) : SimpleServer × HealthEvent :=
  if probe.err = true ∨ probe.statusCode ≠ 200 then
    ({ s with alive := false }, { backend := s.addr, alive := false })
  else
    ({ s with alive := true }, { backend := s.addr, alive := true })

/-- The error handler `handleErr` (part_000 lines 159-163): prints the
error when non-nil and continues; the returned value is what it prints. -/
def handleErr : Except String Unit → Option String
  | Except.error e => some e
  | Except.ok _ => none

/-- The backend constructor `initialiseServer` (part_000 lines 213-221),
parametrised by the outcome of `url.Parse(addr)` (an external
collaborator).  The parse error is passed to `handleErr` (printed), and
the `simpleServer` is constructed unconditionally with the literal
address, `alive: true`, and zero counters; the function has no error
return. -/
def initialiseServer (addr : String) (parsed : Except String Unit) :
    Option String × SimpleServer :=
  (handleErr parsed, { addr := addr, activeConns := 0, alive := true, requests := 0 })

/-- A backend of the `internal/proxy` package (loadbalancer.go lines
14-17), keyed by its configured URL string. -/
structure Backend where
  url : String
  deriving DecidableEq, Repr

/-- The constructor `NewLoadBalancer` (internal/proxy/loadbalancer.go
lines 24-44), parametrised per entry by the outcome of
`url.Parse(backendCfg.URL)`: the first parse error aborts construction
and is returned to the caller; otherwise every entry becomes a backend. -/
def NewLoadBalancer : List (String × Except String Unit) → Except String (List Backend)
  | [] => Except.ok []
  | (addr, parsed) :: rest =>
    match parsed with
    | Except.error e => Except.error e
    | Except.ok _ =>
      match NewLoadBalancer rest with
      | Except.error e => Except.error e
      | Except.ok bs => Except.ok ({ url := addr } :: bs)

/-- Phase of one request task with respect to one backend's counters:
not yet dispatched, between `increment` and the deferred `decrement`
inside `Serve`, or completed. -/
inductive Phase where
  | idle : Phase
  | inflight : Phase
  | done : Phase
  deriving DecidableEq, Repr, BEq

/-- Shared counter state of one backend under concurrent dispatches:
the phases of the `n` request tasks, plus the `int32` field
`activeConns` and the `int64` field `requests` of `simpleServer`. -/
structure DispatchState where
  phases : List Phase
  activeConns : Int
  requests : Int
  deriving DecidableEq, Repr

/-- Initial state for `n` request tasks: nothing dispatched, both
counters zero (Go zero values of the struct fields). -/
def DispatchState.init (n : Nat) : DispatchState :=
  { phases := List.replicate n Phase.idle, activeConns := 0, requests := 0 }

/-- Interleaving semantics of `simpleServer.Serve` (part_000 lines
325-333) over one backend: a `start` step is `s.increment()` at the top
of `Serve` (`atomic.AddInt32(&s.activeConns, 1)` and
`atomic.AddInt64(&s.requests, 1)`, lines 165-170), and a `finish` step is
the deferred `s.decrement()` (`atomic.AddInt32(&s.activeConns, -1)`,
lines 172-175), which runs for every forward outcome `o` — the update
does not depend on `o`. -/
inductive DStep : DispatchState → DispatchState → Prop where
  | start (st : DispatchState) (i : Nat) (h : st.phases[i]? = some Phase.idle) :
      DStep st
        { phases := st.phases.set i Phase.inflight
          activeConns := wrap32 (st.activeConns + 1)
          requests := wrap64 (st.requests + 1) }
  | finish (st : DispatchState) (i : Nat) (o : ForwardOutcome)
      (h : st.phases[i]? = some Phase.inflight) :
      DStep st
        { phases := st.phases.set i Phase.done
          activeConns := wrap32 (st.activeConns - 1)
          requests := st.requests }

/-- Reachability of a counter state from the initial state for `n`
request tasks under any interleaving of `Serve` executions. -/
inductive DReach (n : Nat) : DispatchState → Prop where
  | init : DReach n (DispatchState.init n)
  | step (st st2 : DispatchState) : DReach n st → DStep st st2 → DReach n st2

/-- Number of `recordStart` (`increment`) calls performed so far: one for
each task that has left `idle`. -/
def recordStartCount (st : DispatchState) : Int :=
  ((st.phases.countP (· == Phase.inflight) + st.phases.countP (· == Phase.done) : Nat) : Int)

/-- Number of `recordEnd` (`decrement`) calls performed so far: one for
each task that has reached `done`. -/
def recordEndCount (st : DispatchState) : Int :=
  ((st.phases.countP (· == Phase.done) : Nat) : Int)

/-- Demo pool of three alive backends A, B, C for the round-robin
scenario. -/
def poolABC : List SimpleServer :=
  [{ addr := "A", activeConns := 0, alive := true, requests := 0 },
   { addr := "B", activeConns := 0, alive := true, requests := 0 },
   { addr := "C", activeConns := 0, alive := true, requests := 0 }]

/-- Demo pool for the least-connections scenario: A with 2 active
connections, B with 0, C with 1, all alive. -/
def poolLC : List SimpleServer :=
  [{ addr := "A", activeConns := 2, alive := true, requests := 0 },
   { addr := "B", activeConns := 0, alive := true, requests := 0 },
   { addr := "C", activeConns := 1, alive := true, requests := 0 }]

/-- Demo pool with a single dead backend. -/
def poolDead : List SimpleServer :=
  [{ addr := "A", activeConns := 0, alive := false, requests := 0 }]

/-- Addresses returned by `count` sequential single-threaded round-robin
selections starting from counter value `c` (`none` marks a selection
that did not return a backend). -/
def rrSequence (servers : List SimpleServer) (c : Int) : Nat → List (Option String)
  | 0 => []
  | count + 1 =>
    let r := getNextRoundRobinServer servers c
    (match r.2 with
     | Except.ok (some s) => some s.addr
     | _ => none) :: rrSequence servers r.1 count

/-- Minimality of `m0` among the active-connection counts of the alive
backends of a pool, together with the existence of an alive backend
achieving it. -/
def IsMinAlive (l : List SimpleServer) (m0 : Int) : Prop :=
  (∃ s ∈ l, s.alive = true ∧ s.activeConns = m0) ∧
  ∀ s ∈ l, s.alive = true → m0 ≤ s.activeConns

instance (l : List SimpleServer) (m0 : Int) : Decidable (IsMinAlive l m0) := by
  unfold IsMinAlive
  infer_instance

example : rrSequence poolABC 0 6 =
    [some "B", some "C", some "A", some "B", some "C", some "A"] := by decide

/-- Values already inside the `int32` range are unchanged by `wrap32`. -/
lemma wrap32_eq_self (x : Int) (h1 : -(2 ^ 31) ≤ x) (h2 : x < 2 ^ 31) : wrap32 x = x := by
  unfold wrap32
  have ha : (0 : Int) ≤ x + 2 ^ 31 := by linarith
  have hb : x + 2 ^ 31 < 2 ^ 32 := by norm_num at h2 ⊢; linarith
  rw [Int.emod_eq_of_lt ha hb]
  ring

/-- An element looked up by `getElem?` is a member of the list. -/
lemma mem_of_getElemQ {α : Type} {l : List α} {n : Nat} {a : α} (h : l[n]? = some a) :
    a ∈ l := by
  obtain ⟨hlt, rfl⟩ := List.getElem?_eq_some_iff.mp h
  exact List.getElem_mem hlt

/-- C1.  For every pool in which no backend is alive, the claim says
`getRandomServer` terminates with NONE within pool-size attempts.  The
code does the opposite: the sampling loop has no exit other than finding
an alive backend, so on an all-dead non-empty pool it never returns —
for every finite list of random samples the embedded loop is still
running (`none` here means the loop has not returned, not a NONE
result). -/
theorem getRandomServer_allDead_diverges (servers : List SimpleServer)
    (hne : servers ≠ []) (hdead : ∀ s ∈ servers, s.alive = false) :
    ∀ samples : List Nat, getRandomServer servers samples = none := by
  intro samples
  induction samples with
  | nil => rfl
  | cons k rest ih =>
    have hlen : servers.length ≠ 0 := by
      simpa [Ne, List.length_eq_zero] using hne
    have hk : k % servers.length < servers.length :=
      Nat.mod_lt _ (Nat.pos_of_ne_zero hlen)
    have hsome : servers[k % servers.length]? = some servers[k % servers.length] :=
      List.getElem?_eq_getElem hk
    have hd : (servers[k % servers.length]).alive = false :=
      hdead _ (List.getElem_mem hk)
    simp [getRandomServer, randIntn, hlen, hsome, hd, ih]

/-- Closed instance of `getRandomServer_allDead_diverges` at the one-dead-backend
pool with three concrete samples. -/
theorem getRandomServer_allDead_diverges_witness :
    getRandomServer poolDead [0, 1, 2] = none :=
  getRandomServer_allDead_diverges poolDead (by decide) (by decide) [0, 1, 2]

/-- C2.  On the empty pool, the round-robin and least-connections
selectors do return NONE explicitly, but the random selector — which is
also the fallback for every unrecognised algorithm string — calls
`rand.Intn(0)` and panics on its first iteration, contradicting the
claim that no selection call panics. -/
theorem emptyPool_selection_outcomes :
    (getNextAvailableSever [] 0 [0] "roundrobin").2 = some (Except.ok none) ∧
    (getNextAvailableSever [] 0 [0] "leastconn").2 = some (Except.ok none) ∧
    (getNextAvailableSever [] 0 [0] "random").2 = some (Except.error Fault.intnRange) ∧
    (getNextAvailableSever [] 0 [0] "no-such-algo").2 = some (Except.error Fault.intnRange) :=
  ⟨rfl, rfl, rfl, rfl⟩

/-- C3, counterexample.  With the pool [A, B, C] all alive and the
round-robin counter starting at 0, six sequential selections do not
return A, B, C, A, B, C: the counter is advanced before the scan starts,
so the first selection is B. -/
theorem rrSequence_not_ABC :
    rrSequence poolABC 0 6 ≠
      [some "A", some "B", some "C", some "A", some "B", some "C"] := by
  decide

/-- C3, amended.  With the pool [A, B, C] all alive and the round-robin
counter starting at 0, six sequential single-threaded selections return
B, C, A, B, C, A: each selection first advances the shared counter and
then scans from `counter mod poolSize`, so the first selection starts at
index 1. -/
theorem rrSequence_BCABCA :
    rrSequence poolABC 0 6 =
      [some "B", some "C", some "A", some "B", some "C", some "A"] := by
  decide

/-- C7.  When the selector returns NONE, `serveProxy` writes 503
"Service unavailable" to the client and returns: the request is not
forwarded, no counter event is generated on any backend, and nothing is
reported to the logging or metrics collaborators.  When a backend is
selected, the backend's own writes pass through to the client unchanged
and the status reported to `logRequest` and the Prometheus counters is
the logging response writer's final status, for every forward outcome. -/
theorem serveProxy_outcomes (w : List Nat) (o : ForwardOutcome) :
    serveProxy none w o =
      { clientWrites := [503], counterEvents := [], forwarded := false,
        loggedStatus := none } ∧
    ∀ s : SimpleServer, serveProxy (some s) w o =
      { clientWrites := w,
        counterEvents := [ConnEvent.increment, ConnEvent.decrement],
        forwarded := true,
        loggedStatus := some (lrwFinalStatus w) } := by
  refine ⟨rfl, fun s => ?_⟩
  cases o <;> rfl

/-- C8, counterexample.  `initialiseServer` on an address whose parse
fails does not fail: `handleErr` prints the error and the backend is
constructed and accepted anyway (the function has no error return at
all), so construction from a malformed address neither fails nor skips
the entry. -/
theorem initialiseServer_accepts_malformed :
    initialiseServer "http://bad url" (Except.error "parse error") =
      (some "parse error",
       { addr := "http://bad url", activeConns := 0, alive := true, requests := 0 }) :=
  rfl

/-- C8, amended.  The `internal/proxy` constructor `NewLoadBalancer`
does fail with the parse error on the first malformed address; the main
implementation's `initialiseServer` instead prints the parse error and
still constructs and returns the backend (accepted, not skipped, and
startup does not fail). -/
theorem backend_construction_on_malformed_address
    (good : List (String × Except String Unit)) (addr e : String)
    (rest : List (String × Except String Unit))
    (hgood : ∀ p ∈ good, p.2 = Except.ok ()) :
    NewLoadBalancer (good ++ (addr, Except.error e) :: rest) = Except.error e ∧
    ∀ a msg, initialiseServer a (Except.error msg) =
      (some msg, { addr := a, activeConns := 0, alive := true, requests := 0 }) := by
  refine ⟨?_, fun a msg => rfl⟩
  induction good with
  | nil => rfl
  | cons p ps ih =>
    obtain ⟨a2, pr⟩ := p
    have hp : pr = Except.ok () := hgood (a2, pr) (List.mem_cons_self _ _)
    subst hp
    have hrest : ∀ q ∈ ps, q.2 = Except.ok () := fun q hq =>
      hgood q (List.mem_cons_of_mem _ hq)
    have := ih hrest
    simp [NewLoadBalancer, this]

/-- Closed instance of `backend_construction_on_malformed_address` with
one well-formed entry followed by a malformed one. -/
theorem backend_construction_on_malformed_address_witness :
    NewLoadBalancer
      [("http://localhost:9000", Except.ok ()), ("http://b a d", Except.error "invalid URL")] =
      Except.error "invalid URL" :=
  (backend_construction_on_malformed_address
    [("http://localhost:9000", Except.ok ())] "http://b a d" "invalid URL" []
    (fun p hp => by rw [List.mem_singleton] at hp; subst hp; rfl)).1

/-- C9.  Every backend is constructed with `alive: true` before any probe
runs, and one health check leaves the backend alive exactly when the
probe completed (no error, which includes the 2-second timeout) with
status 200 (`http.StatusOK`, the success status the code tests for);
every other combination — probe error, timeout, or non-200 status —
makes it dead.  The reported health event carries the same liveness. -/
theorem liveness_initial_and_transition (addr : String) (p : Except String Unit)
    (s : SimpleServer) (pr : ProbeResult) :
    (initialiseServer addr p).2.alive = true ∧
    ((checkHealth s pr).1.alive = true ↔ pr.err = false ∧ pr.statusCode = 200) ∧
    (checkHealth s pr).2.alive = (checkHealth s pr).1.alive := by
  refine ⟨rfl, ?_, ?_⟩ <;> unfold checkHealth <;> split_ifs with h
  · simp only [Bool.false_eq_true, false_iff]
    rintro ⟨h1, h2⟩
    rcases h with h | h
    · rw [h1] at h; exact Bool.false_ne_true h
    · exact h h2
  · push_neg at h
    simp only [true_iff]
    exact ⟨Bool.not_eq_true _ ▸ Bool.eq_false_iff.mpr (fun hx => by simp [hx] at h) , h.2⟩
  · rfl
  · rfl

/-- C10.  When the forwarded handler never calls `WriteHeader`, the
logging response writer keeps its initial `http.StatusOK`, so the status
`serveProxy` reports to `logRequest` and to the Prometheus collaborators
is 200 — not zero and not an error value. -/
theorem reported_status_defaults_to_200 (s : SimpleServer) (o : ForwardOutcome) :
    (serveProxy (some s) [] o).loggedStatus = some 200 := by
  cases o <;> rfl

/-- The least-connections loop never updates its selection when every
alive backend it still has to visit has at least `m` active
connections. -/
lemma lcScan_no_update (l : List SimpleServer) :
    ∀ (sel : Option SimpleServer) (m : Int),
      (∀ s ∈ l, s.alive = true → m ≤ s.activeConns) → lcScan l sel m = sel := by
  induction l with
  | nil => intro sel m _; rfl
  | cons s rest ih =>
    intro sel m h
    have hcond : ¬(s.alive = true ∧ s.activeConns < m) := by
      rintro ⟨ha, hlt⟩
      exact absurd (h s (List.mem_cons_self _ _) ha) (not_le.mpr hlt)
    show (if s.alive = true ∧ s.activeConns < m then
        lcScan rest (some s) s.activeConns else lcScan rest sel m) = sel
    rw [if_neg hcond]
    exact ih sel m fun t ht hta => h t (List.mem_cons_of_mem _ ht) hta

/-- Characterisation of the least-connections loop: when `m0` is the
minimum active-connection count among the alive backends of `l` and the
running minimum `m` is still above `m0`, the loop returns the first
alive backend with count `m0`, regardless of the current selection. -/
lemma lcScan_finds_first_min (l : List SimpleServer) (m0 : Int) :
    ∀ (sel : Option SimpleServer) (m : Int), IsMinAlive l m0 → m0 < m →
      lcScan l sel m = l.find? fun s => s.alive && s.activeConns == m0 := by
  induction l with
  | nil =>
    rintro sel m ⟨⟨s, hs, _⟩, _⟩ _
    exact absurd hs (List.not_mem_nil s)
  | cons s rest ih =>
    rintro sel m ⟨⟨t, ht, hta, htc⟩, hall⟩ hm
    show (if s.alive = true ∧ s.activeConns < m then
        lcScan rest (some s) s.activeConns else lcScan rest sel m) = _
    by_cases hs : s.alive = true ∧ s.activeConns < m
    · rw [if_pos hs]
      by_cases he : s.activeConns = m0
      · rw [List.find?_cons_of_pos _ (by simp [hs.1, he])]
        apply lcScan_no_update
        intro u hu hua
        rw [he]
        exact hall u (List.mem_cons_of_mem _ hu) hua
      · have h1 : m0 ≤ s.activeConns := hall s (List.mem_cons_self _ _) hs.1
        have h2 : m0 < s.activeConns := lt_of_le_of_ne h1 (Ne.symm he)
        rw [List.find?_cons_of_neg _ (by simp [he])]
        have htr : t ∈ rest := by
          rcases List.mem_cons.mp ht with rfl | htr
          · exact absurd htc he
          · exact htr
        exact ih (some s) s.activeConns
          ⟨⟨t, htr, hta, htc⟩, fun u hu hua => hall u (List.mem_cons_of_mem _ hu) hua⟩ h2
    · rw [if_neg hs]
      have hps : (s.alive && s.activeConns == m0) = false := by
        by_cases ha : s.alive = true
        · have hge : m ≤ s.activeConns := by
            rcases not_and_or.mp hs with h | h
            · exact absurd ha h
            · exact not_lt.mp h
          have : s.activeConns ≠ m0 := by
            intro hc
            rw [hc] at hge
            exact absurd hm (not_lt.mpr hge)
          simp [this]
        · simp [Bool.not_eq_true _ ▸ ha, Bool.eq_false_iff.mpr ha]
      rw [List.find?_cons_of_neg _ (by simp [hps])]
      have htr : t ∈ rest := by
        rcases List.mem_cons.mp ht with rfl | htr
        · exfalso
          rcases not_and_or.mp hs with h | h
          · exact h hta
          · exact h (htc ▸ hm)
        · exact htr
      exact ih sel m
        ⟨⟨t, htr, hta, htc⟩, fun u hu hua => hall u (List.mem_cons_of_mem _ hu) hua⟩ hm

/-- C5, counterexample.  A pool whose only backend is alive but holds
exactly `int32Max` active connections defeats the claim: the scan's
strict comparison against the `int32Max` sentinel never selects it, so
`getLeastConnServer` returns NONE although an alive backend exists. -/
theorem leastConn_sentinel_counterexample :
    (∃ s ∈ [({ addr := "A", activeConns := 2147483647, alive := true,
               requests := 0 } : SimpleServer)], s.alive = true) ∧
    getLeastConnServer
      [{ addr := "A", activeConns := 2147483647, alive := true, requests := 0 }] = none := by
  exact ⟨⟨_, List.mem_singleton.mpr rfl, rfl⟩, by decide⟩

/-- C5, amended.  Whenever the minimum active-connection count `m0` among
the alive backends is strictly below the `int32Max` sentinel, the
least-connections selector returns the first backend in pool order that
is alive with count `m0` (minimal count, ties broken by
first-encountered order); with no alive backend it returns NONE; and on
the pool [A(conns=2), B(conns=0), C(conns=1)], all alive, it selects
B. -/
theorem leastConn_selection_spec (l : List SimpleServer) (m0 : Int)
    (hmin : IsMinAlive l m0) (hlt : m0 < int32Max) :
    getLeastConnServer l = (l.find? fun s => s.alive && s.activeConns == m0) ∧
    (∀ l2 : List SimpleServer, (∀ s ∈ l2, s.alive = false) → getLeastConnServer l2 = none) ∧
    getLeastConnServer poolLC =
      some { addr := "B", activeConns := 0, alive := true, requests := 0 } := by
  refine ⟨lcScan_finds_first_min l m0 none int32Max hmin hlt, ?_, by decide⟩
  intro l2 hdead
  apply lcScan_no_update
  intro s hs ha
  rw [hdead s hs] at ha
  exact absurd ha (by simp)

/-- Closed instance of `leastConn_selection_spec` on the demo pool, with
minimum count 0: it finds B first. -/
theorem leastConn_selection_spec_witness :
    getLeastConnServer poolLC = (poolLC.find? fun s => s.alive && s.activeConns == 0) :=
  (leastConn_selection_spec poolLC 0 (by decide) (by decide)).1

/-- Go indexing with a cast natural index in range reads the element. -/
lemma goIndex_ofNat (servers : List SimpleServer) (k : Nat) (hk : k < servers.length) :
    goIndex servers (k : Int) = Except.ok servers[k] := by
  unfold goIndex
  have h0 : (0 : Int) ≤ (k : Int) := Int.natCast_nonneg k
  rw [if_pos h0, Int.toNat_natCast, List.getElem?_eq_getElem hk]

/-- The round-robin scan loop computes, over its remaining `r` steps
from offset `i`, the first alive backend among the circular positions it
visits. -/
lemma rrScan_eq_findSome (servers : List SimpleServer) (s0 : Nat)
    (hs0 : s0 < servers.length) :
    ∀ r i : Nat, rrScan servers (s0 : Int) i r =
      Except.ok ((List.range r).findSome? fun j =>
        aliveCheck servers ((s0 + i + j) % servers.length)) := by
  intro r
  induction r with
  | zero => intro i; rfl
  | succ r ih =>
    intro i
    have hpos : 0 < servers.length := lt_of_le_of_lt (Nat.zero_le s0) hs0
    have hmod : (s0 + i) % servers.length < servers.length := Nat.mod_lt _ hpos
    have htmod : Int.tmod ((s0 : Int) + (i : Int)) ((servers.length : Int))
        = (((s0 + i) % servers.length : Nat) : Int) := by
      rw [Int.tmod_eq_emod (by positivity) (by positivity)]
      push_cast
      ring
    have hsome : servers[(s0 + i) % servers.length]? =
        some servers[(s0 + i) % servers.length] := List.getElem?_eq_getElem hmod
    simp only [rrScan, htmod, goIndex_ofNat servers _ hmod]
    rw [List.range_succ_eq_map, List.findSome?_cons]
    have hhead : aliveCheck servers ((s0 + i + 0) % servers.length) =
        if (servers[(s0 + i) % servers.length]).alive then
          some servers[(s0 + i) % servers.length] else none := by
      rw [Nat.add_zero]
      unfold aliveCheck
      rw [hsome]
    by_cases hal : (servers[(s0 + i) % servers.length]).alive
    · rw [if_pos hal]
      rw [hhead, if_pos hal]
    · rw [if_neg hal]
      rw [hhead, if_neg hal]
      rw [ih (i + 1), List.findSome?_map]
      have harg : (fun j => aliveCheck servers ((s0 + i + j) % servers.length)) ∘ Nat.succ
          = fun j => aliveCheck servers ((s0 + (i + 1) + j) % servers.length) := by
        funext j
        have : s0 + i + Nat.succ j = s0 + (i + 1) + j := by omega
        simp [Function.comp, this]
      rw [harg]

/-- Every pool index below the pool size is hit by the circular scan
offsets, whatever the starting position. -/
lemma exists_index_hit (L s0 j : Nat) (hL : 0 < L) (hj : j < L) :
    ∃ i < L, (s0 + i) % L = j := by
  refine ⟨(L + j - s0 % L) % L, Nat.mod_lt _ hL, ?_⟩
  have ha : s0 % L < L := Nat.mod_lt _ hL
  conv_lhs => rw [Nat.add_mod]
  rw [Nat.mod_mod_of_dvd _ dvd_rfl, ← Nat.add_mod]
  have hdm := Nat.div_add_mod s0 L
  have heq : s0 + (L + j - s0 % L) = j + (L * (s0 / L) + L) := by omega
  have heq2 : j + (L * (s0 / L) + L) = j + (s0 / L + 1) * L := by ring
  rw [heq, heq2, Nat.add_mul_mod_self_right]
  exact Nat.mod_eq_of_lt hj

/-- The circular scan finds nothing exactly when no backend of the pool
is alive. -/
lemma circularScan_eq_none_iff (servers : List SimpleServer) (s0 : Nat) :
    circularScan servers s0 = none ↔ ∀ s ∈ servers, s.alive = false := by
  unfold circularScan
  rw [List.findSome?_eq_none_iff]
  constructor
  · intro h s hs
    by_contra hal
    have hal2 : s.alive = true := by simpa using hal
    obtain ⟨j, hj⟩ := List.mem_iff_getElem?.mp hs
    obtain ⟨hjlt, hget⟩ := List.getElem?_eq_some_iff.mp hj
    have hL : 0 < servers.length := lt_of_le_of_lt (Nat.zero_le j) hjlt
    obtain ⟨i, hiL, hie⟩ := exists_index_hit servers.length s0 j hL hjlt
    have hnone := h i (List.mem_range.mpr hiL)
    rw [hie] at hnone
    rw [aliveCheck, hj] at hnone
    simp [hal2] at hnone
  · intro h i _
    unfold aliveCheck
    cases hg : servers[(s0 + i) % servers.length]? with
    | none => rfl
    | some s => simp [h s (mem_of_getElemQ hg)]

/-- C4.  For every non-empty pool, with the shared `int32` counter in its
ordinary range (non-negative, advanced value below `2^31`, as it is from
start-up until the 2^31-th selection), one round-robin selection advances
the counter by exactly 1, then scans circularly from index
`counter mod poolSize` for at most poolSize steps, returning the first
alive backend encountered, and its result is NONE exactly when no
backend of the pool is alive. -/
theorem roundRobin_selection_spec (servers : List SimpleServer) (c : Int)
    (hne : servers ≠ []) (hc : 0 ≤ c) (hub : c + 1 < 2 ^ 31) :
    (getNextRoundRobinServer servers c).1 = c + 1 ∧
    (getNextRoundRobinServer servers c).2 =
      Except.ok (circularScan servers ((c + 1).toNat % servers.length)) ∧
    ((getNextRoundRobinServer servers c).2 = Except.ok none ↔
      ∀ s ∈ servers, s.alive = false) := by
  have hlen : servers.length ≠ 0 := by simpa [Ne, List.length_eq_zero] using hne
  have hpos : 0 < servers.length := Nat.pos_of_ne_zero hlen
  have hw : wrap32 (c + 1) = c + 1 :=
    wrap32_eq_self _ (by linarith) hub
  have hc1 : (0 : Int) ≤ c + 1 := by linarith
  set s0 : Nat := (c + 1).toNat % servers.length with hs0def
  have hs0lt : s0 < servers.length := Nat.mod_lt _ hpos
  have hstart : Int.tmod (wrap32 (c + 1)) ((servers.length : Int)) = (s0 : Int) := by
    rw [hw, Int.tmod_eq_emod hc1 (by positivity), hs0def]
    conv_lhs => rw [← Int.toNat_of_nonneg hc1]
    push_cast
    ring
  have hscan : rrScan servers (Int.tmod (wrap32 (c + 1)) ((servers.length : Int))) 0
      servers.length = Except.ok (circularScan servers s0) := by
    rw [hstart, rrScan_eq_findSome servers s0 hs0lt servers.length 0]
    unfold circularScan
    congr 1
  have hunfold : getNextRoundRobinServer servers c =
      (wrap32 (c + 1),
       rrScan servers (Int.tmod (wrap32 (c + 1)) ((servers.length : Int))) 0
         servers.length) := by
    unfold getNextRoundRobinServer
    simp [hlen]
  rw [hunfold]
  refine ⟨hw, ?_, ?_⟩
  · exact hscan
  · rw [hscan]
    simp only [Except.ok.injEq]
    exact circularScan_eq_none_iff servers s0

/-- Closed instance of `roundRobin_selection_spec` on the demo pool from
counter 0: the counter advances to 1 and the scan starts at index 1. -/
theorem roundRobin_selection_spec_witness :
    (getNextRoundRobinServer poolABC 0).1 = 0 + 1 ∧
    (getNextRoundRobinServer poolABC 0).2 =
      Except.ok (circularScan poolABC ((0 + 1 : Int).toNat % poolABC.length)) :=
  ⟨(roundRobin_selection_spec poolABC 0 (by decide) (by decide) (by decide)).1,
   (roundRobin_selection_spec poolABC 0 (by decide) (by decide) (by decide)).2.1⟩

/-- Inductive invariant of the dispatch counter state machine: the task
list keeps its size, and the `activeConns` field always equals the
number of tasks currently between their `increment` and their deferred
`decrement` (for fewer than `2^31` tasks the `int32` additions never
wrap). -/
lemma dreach_invariant (n : Nat) (hn : n < 2 ^ 31) (st : DispatchState)
    (h : DReach n st) :
    st.phases.length = n ∧
    st.activeConns = ((st.phases.countP (· == Phase.inflight) : Nat) : Int) := by
  induction h with
  | init =>
    refine ⟨by simp [DispatchState.init], ?_⟩
    have hbeq : (Phase.idle == Phase.inflight) = false := rfl
    simp [DispatchState.init, List.countP_replicate, hbeq]
  | step st st2 hr hstep ih =>
    obtain ⟨hlen, hconns⟩ := ih
    cases hstep with
    | start i hph =>
      obtain ⟨hilt, hi⟩ := List.getElem?_eq_some_iff.mp hph
      have hcount := List.countP_set (· == Phase.inflight) st.phases i Phase.inflight hilt
      rw [hi] at hcount
      have hbeq1 : (Phase.idle == Phase.inflight) = false := rfl
      have hbeq2 : (Phase.inflight == Phase.inflight) = true := rfl
      rw [hbeq1, hbeq2] at hcount
      simp only [Bool.false_eq_true, if_false, if_true, Nat.sub_zero] at hcount
      have hle : st.phases.countP (· == Phase.inflight) + 1 ≤ n := by
        have h1 := @List.countP_le_length _ (· == Phase.inflight)
          (st.phases.set i Phase.inflight)
        rw [hcount, List.length_set, hlen] at h1
        exact h1
      refine ⟨by simp [List.length_set, hlen], ?_⟩
      show wrap32 (st.activeConns + 1) = _
      rw [hconns, hcount]
      rw [wrap32_eq_self]
      · push_cast
        ring
      · have := Int.natCast_nonneg (st.phases.countP (· == Phase.inflight))
        linarith
      · have hcast : ((st.phases.countP (· == Phase.inflight) : Nat) : Int) + 1 =
            ((st.phases.countP (· == Phase.inflight) + 1 : Nat) : Int) := by push_cast; ring
        rw [hcast]
        have h31 : ((n : Nat) : Int) < 2 ^ 31 := by exact_mod_cast hn
        calc ((st.phases.countP (· == Phase.inflight) + 1 : Nat) : Int)
            ≤ ((n : Nat) : Int) := by exact_mod_cast hle
          _ < 2 ^ 31 := h31
    | finish i o hph =>
      obtain ⟨hilt, hi⟩ := List.getElem?_eq_some_iff.mp hph
      have hcount := List.countP_set (· == Phase.inflight) st.phases i Phase.done hilt
      rw [hi] at hcount
      have hbeq1 : (Phase.inflight == Phase.inflight) = true := rfl
      have hbeq2 : (Phase.done == Phase.inflight) = false := rfl
      rw [hbeq1, hbeq2] at hcount
      simp only [Bool.false_eq_true, if_false, if_true, Nat.add_zero] at hcount
      have hone : 1 ≤ st.phases.countP (· == Phase.inflight) := by
        rw [Nat.succ_le_iff]
        exact List.countP_pos_iff.mpr ⟨st.phases[i], List.getElem_mem hilt, by rw [hi]; rfl⟩
      have hle : st.phases.countP (· == Phase.inflight) ≤ n := by
        have h1 := @List.countP_le_length _ (· == Phase.inflight) st.phases
        rw [hlen] at h1
        exact h1
      refine ⟨by simp [List.length_set, hlen], ?_⟩
      show wrap32 (st.activeConns - 1) = _
      rw [hconns, hcount]
      rw [wrap32_eq_self]
      · rw [Nat.cast_sub hone]
        push_cast
        ring
      · have hc1 : (1 : Int) ≤ ((st.phases.countP (· == Phase.inflight) : Nat) : Int) := by
          exact_mod_cast hone
        have : (0 : Int) < 2 ^ 31 := by norm_num
        linarith
      · have h31 : ((n : Nat) : Int) < 2 ^ 31 := by exact_mod_cast hn
        have hc2 : ((st.phases.countP (· == Phase.inflight) : Nat) : Int) ≤ ((n : Nat) : Int) := by
          exact_mod_cast hle
        linarith

/-- C6.  In every state reachable by interleaving `Serve` executions
(fewer than `2^31` request tasks), the backend's `activeConns` equals
the number of `increment` (`recordStart`) calls minus the number of
`decrement` (`recordEnd`) calls and is never negative; and every forward
outcome — success, proxy error, panic-equivalent — produces exactly one
`increment` followed by exactly one `decrement` (the deferred call). -/
theorem activeConns_pairing (n : Nat) (st : DispatchState)
    (hn : n < 2 ^ 31) (h : DReach n st) :
    st.activeConns = recordStartCount st - recordEndCount st ∧
    0 ≤ st.activeConns ∧
    ∀ o : ForwardOutcome, serveEvents o = [ConnEvent.increment, ConnEvent.decrement] := by
  obtain ⟨-, hconns⟩ := dreach_invariant n hn st h
  refine ⟨?_, ?_, fun o => by cases o <;> rfl⟩
  · rw [hconns]
    unfold recordStartCount recordEndCount
    push_cast
    ring
  · rw [hconns]
    exact Int.natCast_nonneg _

/-- Closed instance of `activeConns_pairing`: after one `increment` step
of a single request task, the reachable state has one in-flight task and
a non-negative counter equal to starts minus ends. -/
theorem activeConns_pairing_witness :
    ({ phases := [Phase.inflight], activeConns := 1, requests := 1 } : DispatchState).activeConns
      = recordStartCount { phases := [Phase.inflight], activeConns := 1, requests := 1 }
        - recordEndCount { phases := [Phase.inflight], activeConns := 1, requests := 1 } ∧
    (0 : Int) ≤
      ({ phases := [Phase.inflight], activeConns := 1, requests := 1 } : DispatchState).activeConns := by
  have h0 : DReach 1 (DispatchState.init 1) := DReach.init
  have h1 := DReach.step _ _ h0 (DStep.start (DispatchState.init 1) 0 (by decide))
  have he : ({ phases := (DispatchState.init 1).phases.set 0 Phase.inflight,
               activeConns := wrap32 ((DispatchState.init 1).activeConns + 1),
               requests := wrap64 ((DispatchState.init 1).requests + 1) } : DispatchState) =
      { phases := [Phase.inflight], activeConns := 1, requests := 1 } := by decide
  rw [he] at h1
  have hmain := activeConns_pairing 1 _ (by norm_num) h1
  exact ⟨hmain.1, hmain.2.1⟩
